import Mathlib

/-
Verification of the CCache LRU+TTL cache (src/CCache.h) against its
natural-language specification.

The C++ template class CCache<Key, Value> is shallowly embedded here:
  * the unordered_map<Key, CacheEntry> becomes an association list
    List (K × CacheEntry V) (no duplicate keys arise from the operations);
  * the std::list<Key> access_order_ becomes List K, front = least
    recently used, back = most recently used;
  * the steady-clock is passed in explicitly: every operation that reads
    the clock takes a `now : Nat` argument (milliseconds of a monotonic
    clock);
  * the two optional callbacks (logger_, eviction_callback_) are modelled
    by Bool flags recording whether they are installed, and every
    operation returns, besides its result and the successor state, the
    list of hook invocations it performs, in invocation order;
  * key_to_string (stringstream conversion of the key) is modelled by an
    injected formatter field.
Locks are erased: the embedding is the sequential semantics of the code.
-/

set_option maxHeartbeats 1000000
set_option linter.unusedSectionVars false

/-- A cache entry: the stored value together with the monotonic-clock
timestamp (milliseconds) at which the entry was created or last refreshed.
Mirrors struct CacheEntry of CCache.h (lines 192-195). -/
structure CacheEntry (V : Type) where
  value : V
  timestamp : Nat
  deriving DecidableEq

/-- One observable hook invocation: either the eviction callback receiving
the removed key and value, or the logger receiving a message. -/
inductive CEvent (K V : Type) where
  | evictHook : K → V → CEvent K V
  | logMsg : String → CEvent K V
  deriving DecidableEq

/-- The cache state: configuration (max_size_, ttl_millis_, which hooks are
installed, the key formatter) plus the mutable state (cache_map_ and
access_order_). Mirrors the data members of CCache (lines 197-203). -/
structure CCache (K V : Type) where
  max_size : Nat
  ttl_millis : Nat
  cache_map : List (K × CacheEntry V)
  access_order : List K
  has_logger : Bool
  has_evict_cb : Bool
  key_to_string : K → String

/-- Lookup in the association list modelling unordered_map::find. -/
def mapFind {K V : Type} [DecidableEq K] (m : List (K × CacheEntry V)) (k : K) :
    Option (CacheEntry V) :=
  match m with
  | [] => none
  | (k1, e) :: rest => if k1 = k then some e else mapFind rest k

/-- Insert-or-assign in the association list, modelling
unordered_map::operator[] assignment (replace the entry when the key is
present, append a fresh entry otherwise). -/
def mapSet {K V : Type} [DecidableEq K] (m : List (K × CacheEntry V)) (k : K)
    (e : CacheEntry V) : List (K × CacheEntry V) :=
  match m with
  | [] => [(k, e)]
  | (k1, e1) :: rest => if k1 = k then (k1, e) :: rest else (k1, e1) :: mapSet rest k e

/-- Removal of a key from the association list, modelling
unordered_map::erase (removes every pair carrying the key; the operations
never create duplicates, so at most one pair is removed). -/
def mapErase {K V : Type} [DecidableEq K] (m : List (K × CacheEntry V)) (k : K) :
    List (K × CacheEntry V) :=
  m.filter (fun p => decide (p.1 ≠ k))

/-- std::list::remove: removes every occurrence of the key from the list. -/
def listRemove {K : Type} [DecidableEq K] (l : List K) (k : K) : List K :=
  l.filter (fun x => decide (x ≠ k))

/-- The keys of the entry map, in storage order. -/
def keysOf {K V : Type} (m : List (K × CacheEntry V)) : List K :=
  m.map Prod.fst

/-- The (key, value) payloads of the eviction-hook invocations in an event
trace, in order. -/
def evictEvents {K V : Type} : List (CEvent K V) → List (K × V)
  | [] => []
  | CEvent.evictHook k v :: rest => (k, v) :: evictEvents rest
  | CEvent.logMsg _ :: rest => evictEvents rest

namespace CCache

variable {K V : Type}

/-- CCache::log (lines 279-281): the logger fires only when installed. -/
def log (c : CCache K V) (msg : String) : List (CEvent K V) :=
  if c.has_logger then [CEvent.logMsg msg] else []

/-- CCache::contains (lines 46-49). -/
def contains [DecidableEq K] (c : CCache K V) (k : K) : Bool :=
  (mapFind c.cache_map k).isSome

/-- CCache::is_expired (lines 211-213): an entry is expired when
now - timestamp > ttl_millis (truncated subtraction agrees with the
signed-duration comparison of the source for every monotone clock). -/
def is_expired (c : CCache K V) (ts now : Nat) : Bool :=
  decide (c.ttl_millis < now - ts)

/-- CCache::update_access_order (lines 222-225): move the key to the back
of the recency list. -/
def update_access_order [DecidableEq K] (c : CCache K V) (k : K) : CCache K V :=
  { c with access_order := listRemove c.access_order k ++ [k] }

/-- CCache::add_new_entry (lines 235-239): store the entry with the current
timestamp, push the key to the back of the recency list, log PUT. -/
def add_new_entry [DecidableEq K] (c : CCache K V) (k : K) (v : V) (now : Nat) :
    CCache K V × List (CEvent K V) :=
  let c1 := { c with cache_map := mapSet c.cache_map k ⟨v, now⟩,
                     access_order := c.access_order ++ [k] }
  (c1, c1.log ("PUT: " ++ c.key_to_string k))

/-- CCache::update_existing_entry (lines 249-254): overwrite value and
timestamp, promote the key, log UPDATE. -/
def update_existing_entry [DecidableEq K] (c : CCache K V) (k : K) (v : V) (now : Nat) :
    CCache K V × List (CEvent K V) :=
  let c1 := { c with cache_map := mapSet c.cache_map k ⟨v, now⟩ }
  let c2 := c1.update_access_order k
  (c2, c2.log ("UPDATE: " ++ c.key_to_string k))

/-- CCache::evict (lines 129-151): unconditional removal of a key. When the
key is present the eviction callback (if installed) receives the key and
the stored value, the entry leaves both the map and the recency list, and
EVICT is logged; when absent, nothing happens. -/
def evict [DecidableEq K] (c : CCache K V) (k : K) :
    Option V × CCache K V × List (CEvent K V) :=
  match mapFind c.cache_map k with
  | none => (none, c, [])
  | some entry =>
      let hook : List (CEvent K V) :=
        if c.has_evict_cb then [CEvent.evictHook k entry.value] else []
      let c1 := { c with cache_map := mapErase c.cache_map k,
                         access_order := listRemove c.access_order k }
      (some entry.value, c1, hook ++ c1.log ("EVICT: " ++ c.key_to_string k))

/-- CCache::evict_lru (lines 117-121): evict the front (least recently
used) key of the recency list; no-op when the list is empty. The C++
function returns void, modelled as Unit. -/
def evict_lru [DecidableEq K] (c : CCache K V) :
    Unit × CCache K V × List (CEvent K V) :=
  match c.access_order with
  | [] => ((), c, [])
  | lru_key :: _ =>
      let r := c.evict lru_key
      ((), r.2.1, r.2.2)

/-- CCache::get (lines 59-84): absent keys yield none; an expired entry is
evicted (through evict) and none is returned; a fresh entry is promoted to
most recently used, GET is logged and its value returned. -/
def get [DecidableEq K] (c : CCache K V) (k : K) (now : Nat) :
    Option V × CCache K V × List (CEvent K V) :=
  match mapFind c.cache_map k with
  | none => (none, c, [])
  | some entry =>
      if c.is_expired entry.timestamp now then
        let r := c.evict k
        (none, r.2.1, r.2.2)
      else
        let c1 := c.update_access_order k
        (some entry.value, c1, c1.log ("GET: " ++ c.key_to_string k))

/-- CCache::put (lines 95-110): an existing key is updated in place
(returning the old value); a new key first triggers evict_lru when
cache_map_.size() >= max_size_, then is inserted, returning none. -/
def put [DecidableEq K] (c : CCache K V) (k : K) (v : V) (now : Nat) :
    Option V × CCache K V × List (CEvent K V) :=
  match mapFind c.cache_map k with
  | some entry =>
      let r := c.update_existing_entry k v now
      (some entry.value, r.1, r.2)
  | none =>
      let r1 := if c.max_size ≤ c.cache_map.length then
          let r := c.evict_lru
          (r.2.1, r.2.2)
        else (c, ([] : List (CEvent K V)))
      let r2 := r1.1.add_new_entry k v now
      (none, r2.1, r1.2 ++ r2.2)

/-- CCache::with_cache (lines 163-176): try get; on a hit log HIT and
return the value; on a miss log MISS, run compute_func, and when it yields
a value store it with put and return it, otherwise return none. The final
Bool reports whether compute_func was invoked. -/
def with_cache [DecidableEq K] (c : CCache K V) (k : K)
    (compute_func : Unit → Option V) (now : Nat) :
    Option V × CCache K V × List (CEvent K V) × Bool :=
  let r := c.get k now
  match r.1 with
  | some v =>
      (some v, r.2.1, r.2.2 ++ r.2.1.log ("HIT: " ++ c.key_to_string k), false)
  | none =>
      let missEvs := r.2.1.log ("MISS: " ++ c.key_to_string k)
      match compute_func () with
      | some v =>
          let rp := r.2.1.put k v now
          (some v, rp.2.1, r.2.2 ++ missEvs ++ rp.2.2, true)
      | none => (none, r.2.1, r.2.2 ++ missEvs, true)

/-- CCache::clear (lines 183-188): drop every entry and the whole recency
list, log CLEAR; the per-entry eviction callback is not invoked. -/
def clear (c : CCache K V) : CCache K V × List (CEvent K V) :=
  let c1 := { c with cache_map := ([] : List (K × CacheEntry V)),
                     access_order := ([] : List K) }
  (c1, c1.log "CLEAR: All cache entries have been removed.")

/-- The CCache constructor (lines 30-38): int max_size and long long
ttl_millis are validated to be strictly positive; invalid configuration
raises std::invalid_argument, modelled as Except.error. -/
def construct (max_size ttl_millis : Int) (hl he : Bool) (kts : K → String) :
    Except String (CCache K V) :=
  if max_size ≤ 0 then Except.error "max_size must be greater than zero"
  else if ttl_millis ≤ 0 then Except.error "ttl_millis must be greater than zero"
  else Except.ok { max_size := max_size.toNat, ttl_millis := ttl_millis.toNat,
                   cache_map := [], access_order := [],
                   has_logger := hl, has_evict_cb := he, key_to_string := kts }

/-- Exceptional semantics of CCache::evict when a hook throws. The source
(lines 132-144) invokes the eviction callback first, then erases the entry
from cache_map_ and access_order_, then logs. cb_throws (resp. log_throws)
makes the installed eviction callback (resp. logger) throw at its
invocation point; Except.error carries the cache state at the moment the
exception escapes. -/
def evict_exc [DecidableEq K] (c : CCache K V) (k : K) (cb_throws log_throws : Bool) :
    Except (CCache K V) (Option V × CCache K V × List (CEvent K V)) :=
  match mapFind c.cache_map k with
  | none => Except.ok (none, c, [])
  | some entry =>
      if c.has_evict_cb && cb_throws then Except.error c
      else
        let hook : List (CEvent K V) :=
          if c.has_evict_cb then [CEvent.evictHook k entry.value] else []
        let c1 := { c with cache_map := mapErase c.cache_map k,
                           access_order := listRemove c.access_order k }
        if c.has_logger && log_throws then Except.error c1
        else Except.ok (some entry.value, c1, hook ++ c1.log ("EVICT: " ++ c.key_to_string k))

end CCache

/-- One cache operation of the public mutating interface, with the clock
reading it happens at; a with_cache operation carries the (pure) result of
its compute function. -/
inductive CacheOp (K V : Type) where
  | putOp : K → V → Nat → CacheOp K V
  | getOp : K → Nat → CacheOp K V
  | evictOp : K → CacheOp K V
  | evictLruOp : CacheOp K V
  | clearOp : CacheOp K V
  | withCacheOp : K → Option V → Nat → CacheOp K V

/-- The state reached by running one operation. -/
def applyOp {K V : Type} [DecidableEq K] (c : CCache K V) : CacheOp K V → CCache K V
  | CacheOp.putOp k v now => (c.put k v now).2.1
  | CacheOp.getOp k now => (c.get k now).2.1
  | CacheOp.evictOp k => (c.evict k).2.1
  | CacheOp.evictLruOp => (c.evict_lru).2.1
  | CacheOp.clearOp => (c.clear).1
  | CacheOp.withCacheOp k ov now => (c.with_cache k (fun _ => ov) now).2.1

/-- The state reached by running a sequence of operations. -/
def runOps {K V : Type} [DecidableEq K] (c : CCache K V) (ops : List (CacheOp K V)) :
    CCache K V :=
  ops.foldl applyOp c

/-- The structural invariants of a cache state: no duplicate keys in the
entry map, no duplicates in the recency list, the keys of the map and the
members of the recency list coincide, and the map fits in max_size. -/
structure WF {K V : Type} (c : CCache K V) : Prop where
  nodup_keys : (keysOf c.cache_map).Nodup
  nodup_order : c.access_order.Nodup
  mem_iff : ∀ k : K, k ∈ keysOf c.cache_map ↔ k ∈ c.access_order
  size_le : c.cache_map.length ≤ c.max_size
  pos : 0 < c.max_size

/-- Two cache states share their configuration: the operations never
change max_size, ttl_millis, the installed hooks or the key formatter. -/
def SameConfig {K V : Type} (c c1 : CCache K V) : Prop :=
  c1.max_size = c.max_size ∧ c1.ttl_millis = c.ttl_millis ∧
  c1.has_logger = c.has_logger ∧ c1.has_evict_cb = c.has_evict_cb ∧
  c1.key_to_string = c.key_to_string

/-- The key formatter used by the concrete example caches, matching the
stringstream conversion the C++ applies to integer keys. -/
def natKeyRepr : Nat → String := fun n => toString n

/-- The cache of the demonstration driver before any operation: max_size 3,
ttl 5000 ms, both hooks installed, no entries. -/
def cacheEmpty3 : CCache Nat Nat :=
  { max_size := 3, ttl_millis := 5000, cache_map := [], access_order := [],
    has_logger := true, has_evict_cb := true, key_to_string := natKeyRepr }

/-- A cache with max_size 3, ttl 5000 ms, both hooks installed, holding the
single entry key 1 ↦ value 100 stamped at time 0. -/
def cacheOne : CCache Nat Nat :=
  { max_size := 3, ttl_millis := 5000, cache_map := [(1, ⟨100, 0⟩)],
    access_order := [1], has_logger := true, has_evict_cb := true,
    key_to_string := natKeyRepr }

/-- A full cache (3 entries, max_size 3) with recency order 1, 2, 3. -/
def cacheFull : CCache Nat Nat :=
  { max_size := 3, ttl_millis := 5000,
    cache_map := [(1, ⟨100, 0⟩), (2, ⟨200, 1⟩), (3, ⟨300, 2⟩)],
    access_order := [1, 2, 3], has_logger := true, has_evict_cb := true,
    key_to_string := natKeyRepr }

/-- The state after puts of keys 1, 2, 3, 4 (values 100, 200, 300, 400)
into the empty max_size-3 cache, with no intervening gets. -/
def cacheLRUrun : CCache Nat Nat :=
  ((((cacheEmpty3.put 1 100 0).2.1.put 2 200 1).2.1.put 3 300 2).2.1.put 4 400 3).2.1

/-- A concrete operation sequence exercising every public mutating
operation, used to instantiate the invariant claims. -/
def witnessOps : List (CacheOp Nat Nat) :=
  [CacheOp.putOp 1 100 0, CacheOp.putOp 2 200 1, CacheOp.putOp 3 300 2,
   CacheOp.putOp 4 400 3, CacheOp.getOp 2 4, CacheOp.evictOp 3,
   CacheOp.withCacheOp 7 (some 700) 5, CacheOp.evictLruOp, CacheOp.clearOp,
   CacheOp.putOp 9 900 6]

section MapLemmas

variable {K V : Type} [DecidableEq K]

theorem keysOf_nil : keysOf ([] : List (K × CacheEntry V)) = [] := rfl

theorem keysOf_cons (p : K × CacheEntry V) (m : List (K × CacheEntry V)) :
    keysOf (p :: m) = p.1 :: keysOf m := rfl

theorem mapFind_eq_none_iff (m : List (K × CacheEntry V)) (k : K) :
    mapFind m k = none ↔ k ∉ keysOf m := by
  induction m with
  | nil => simp [mapFind, keysOf]
  | cons p rest ih =>
    obtain ⟨k1, e⟩ := p
    by_cases h : k1 = k
    · subst h
      simp [mapFind, keysOf]
    · simp [mapFind, keysOf, h, ih, Ne.symm h]

theorem mapFind_isSome_iff (m : List (K × CacheEntry V)) (k : K) :
    (mapFind m k).isSome = true ↔ k ∈ keysOf m := by
  rw [Option.isSome_iff_ne_none]
  constructor
  · intro h
    by_contra h2
    exact h ((mapFind_eq_none_iff m k).2 h2)
  · intro h h2
    exact ((mapFind_eq_none_iff m k).1 h2) h

theorem mapFind_mapSet_self (m : List (K × CacheEntry V)) (k : K) (e : CacheEntry V) :
    mapFind (mapSet m k e) k = some e := by
  induction m with
  | nil => simp [mapSet, mapFind]
  | cons p rest ih =>
    obtain ⟨k1, e1⟩ := p
    by_cases h : k1 = k
    · simp [mapSet, mapFind, h]
    · simp [mapSet, mapFind, h, ih]

theorem mapFind_mapSet_ne (m : List (K × CacheEntry V)) (k j : K) (e : CacheEntry V)
    (h : j ≠ k) : mapFind (mapSet m k e) j = mapFind m j := by
  induction m with
  | nil => simp [mapSet, mapFind, Ne.symm h]
  | cons p rest ih =>
    obtain ⟨k1, e1⟩ := p
    by_cases h1 : k1 = k
    · subst h1
      have h2 : k1 ≠ j := Ne.symm h
      simp [mapSet, mapFind, h2]
    · simp [mapSet, mapFind, h1, ih]

theorem keysOf_mapSet_of_mem (m : List (K × CacheEntry V)) (k : K) (e : CacheEntry V)
    (h : k ∈ keysOf m) : keysOf (mapSet m k e) = keysOf m := by
  induction m with
  | nil => simp [keysOf_nil] at h
  | cons p rest ih =>
    obtain ⟨k1, e1⟩ := p
    by_cases h1 : k1 = k
    · simp [mapSet, h1, keysOf_cons]
    · have hc : k = k1 ∨ k ∈ keysOf rest := by simpa [keysOf_cons] using h
      have h2 : k ∈ keysOf rest := by
        rcases hc with hc | hc
        · exact absurd hc (Ne.symm h1)
        · exact hc
      simp [mapSet, h1, keysOf_cons, ih h2]

theorem keysOf_mapSet_of_not_mem (m : List (K × CacheEntry V)) (k : K) (e : CacheEntry V)
    (h : k ∉ keysOf m) : keysOf (mapSet m k e) = keysOf m ++ [k] := by
  induction m with
  | nil => simp [mapSet, keysOf_nil, keysOf_cons]
  | cons p rest ih =>
    obtain ⟨k1, e1⟩ := p
    have hc : ¬(k = k1 ∨ k ∈ keysOf rest) := by simpa [keysOf_cons] using h
    push_neg at hc
    have h1 : k1 ≠ k := Ne.symm hc.1
    simp [mapSet, h1, keysOf_cons, ih hc.2]

theorem length_keysOf (m : List (K × CacheEntry V)) : (keysOf m).length = m.length := by
  simp [keysOf]

theorem keysOf_mapErase (m : List (K × CacheEntry V)) (k : K) :
    keysOf (mapErase m k) = listRemove (keysOf m) k := by
  induction m with
  | nil => simp [mapErase, keysOf, listRemove]
  | cons p rest ih =>
    obtain ⟨k1, e1⟩ := p
    by_cases h : k1 = k
    · simp [mapErase, keysOf, listRemove, List.filter_cons, h] at ih ⊢
      exact ih
    · simp [mapErase, keysOf, listRemove, List.filter_cons, h] at ih ⊢
      exact ih

theorem mem_listRemove_iff (l : List K) (k j : K) :
    j ∈ listRemove l k ↔ j ∈ l ∧ j ≠ k := by
  simp [listRemove, List.mem_filter]

theorem nodup_listRemove (l : List K) (k : K) (h : l.Nodup) : (listRemove l k).Nodup :=
  h.filter _

theorem not_mem_listRemove_self (l : List K) (k : K) : k ∉ listRemove l k := by
  simp [listRemove, List.mem_filter]

theorem mapFind_mapErase_self (m : List (K × CacheEntry V)) (k : K) :
    mapFind (mapErase m k) k = none := by
  rw [mapFind_eq_none_iff, keysOf_mapErase]
  exact not_mem_listRemove_self _ _

theorem mapFind_mapErase_ne (m : List (K × CacheEntry V)) (k j : K) (h : j ≠ k) :
    mapFind (mapErase m k) j = mapFind m j := by
  induction m with
  | nil => simp [mapErase, mapFind]
  | cons p rest ih =>
    obtain ⟨k1, e1⟩ := p
    by_cases h1 : k1 = k
    · have hstep : mapErase ((k1, e1) :: rest) k = mapErase rest k := by
        simp [mapErase, List.filter_cons, h1]
      have h2 : ¬k1 = j := fun hh => h (hh ▸ h1)
      rw [hstep, ih]
      simp [mapFind, h2]
    · have hstep : mapErase ((k1, e1) :: rest) k = (k1, e1) :: mapErase rest k := by
        simp [mapErase, List.filter_cons, h1]
      rw [hstep]
      simp [mapFind, ih]

theorem nodup_append_singleton (l : List K) (a : K) (h1 : l.Nodup) (h2 : a ∉ l) :
    (l ++ [a]).Nodup := by
  rw [List.nodup_append]
  refine ⟨h1, List.nodup_singleton a, ?_⟩
  intro x hx hx2
  simp at hx2
  subst hx2
  exact h2 hx

theorem length_filter_ne_of_nodup (l : List K) (a : K) (h1 : l.Nodup) (h2 : a ∈ l) :
    (listRemove l a).length + 1 = l.length := by
  induction l with
  | nil => simp at h2
  | cons b rest ih =>
    by_cases hb : b = a
    · subst hb
      have hrest : b ∉ rest := (List.nodup_cons.1 h1).1
      have heq : listRemove rest b = rest := by
        apply List.filter_eq_self.2
        intro x hx
        simp only [decide_eq_true_eq]
        intro hxx
        subst hxx
        exact hrest hx
      have hstep : listRemove (b :: rest) b = listRemove rest b := by
        simp [listRemove, List.filter_cons]
      rw [hstep, heq]
      simp
    · have h3 : a ∈ rest := by
        rcases List.mem_cons.1 h2 with h | h
        · exact absurd h.symm hb
        · exact h
      have h4 := ih (List.nodup_cons.1 h1).2 h3
      have hstep : listRemove (b :: rest) a = b :: listRemove rest a := by
        simp [listRemove, List.filter_cons, hb]
      rw [hstep]
      simp only [List.length_cons]
      omega

theorem length_mapErase_of_mem (m : List (K × CacheEntry V)) (k : K)
    (h1 : (keysOf m).Nodup) (h2 : k ∈ keysOf m) :
    (mapErase m k).length + 1 = m.length := by
  have h3 := length_filter_ne_of_nodup (keysOf m) k h1 h2
  rw [← length_keysOf m, ← length_keysOf (mapErase m k), keysOf_mapErase]
  exact h3

theorem length_mapErase_le (m : List (K × CacheEntry V)) (k : K) :
    (mapErase m k).length ≤ m.length :=
  List.length_filter_le _ _

theorem length_mapSet_of_mem (m : List (K × CacheEntry V)) (k : K) (e : CacheEntry V)
    (h : k ∈ keysOf m) : (mapSet m k e).length = m.length := by
  rw [← length_keysOf (mapSet m k e), ← length_keysOf m, keysOf_mapSet_of_mem m k e h]

theorem length_mapSet_of_not_mem (m : List (K × CacheEntry V)) (k : K) (e : CacheEntry V)
    (h : k ∉ keysOf m) : (mapSet m k e).length = m.length + 1 := by
  rw [← length_keysOf (mapSet m k e), ← length_keysOf m, keysOf_mapSet_of_not_mem m k e h]
  simp

end MapLemmas

section OpLemmas

variable {K V : Type} [DecidableEq K]

theorem evict_state_none (c : CCache K V) (k : K) (h : mapFind c.cache_map k = none) :
    c.evict k = (none, c, []) := by
  simp [CCache.evict, h]

theorem evict_state_some (c : CCache K V) (k : K) (e : CacheEntry V)
    (h : mapFind c.cache_map k = some e) :
    c.evict k = (some e.value,
      { c with cache_map := mapErase c.cache_map k,
               access_order := listRemove c.access_order k },
      (if c.has_evict_cb then [CEvent.evictHook k e.value] else []) ++
        c.log ("EVICT: " ++ c.key_to_string k)) := by
  simp [CCache.evict, h, CCache.log]

theorem get_state_none (c : CCache K V) (k : K) (now : Nat)
    (h : mapFind c.cache_map k = none) : c.get k now = (none, c, []) := by
  simp [CCache.get, h]

theorem get_state_expired (c : CCache K V) (k : K) (now : Nat) (e : CacheEntry V)
    (h : mapFind c.cache_map k = some e) (h2 : c.is_expired e.timestamp now = true) :
    c.get k now = (none, (c.evict k).2.1, (c.evict k).2.2) := by
  simp [CCache.get, h, h2]

theorem get_state_fresh (c : CCache K V) (k : K) (now : Nat) (e : CacheEntry V)
    (h : mapFind c.cache_map k = some e) (h2 : c.is_expired e.timestamp now = false) :
    c.get k now = (some e.value, c.update_access_order k,
      c.log ("GET: " ++ c.key_to_string k)) := by
  simp [CCache.get, h, h2, CCache.log, CCache.update_access_order]

theorem put_state_existing (c : CCache K V) (k : K) (v : V) (now : Nat) (e : CacheEntry V)
    (h : mapFind c.cache_map k = some e) :
    c.put k v now = (some e.value,
      { c with cache_map := mapSet c.cache_map k ⟨v, now⟩,
               access_order := listRemove c.access_order k ++ [k] },
      c.log ("UPDATE: " ++ c.key_to_string k)) := by
  simp [CCache.put, h, CCache.update_existing_entry, CCache.update_access_order, CCache.log]

theorem put_state_new_room (c : CCache K V) (k : K) (v : V) (now : Nat)
    (h : mapFind c.cache_map k = none) (h2 : c.cache_map.length < c.max_size) :
    c.put k v now = (none,
      { c with cache_map := mapSet c.cache_map k ⟨v, now⟩,
               access_order := c.access_order ++ [k] },
      c.log ("PUT: " ++ c.key_to_string k)) := by
  simp [CCache.put, h, Nat.not_le.2 h2, CCache.add_new_entry, CCache.log]

theorem put_state_new_full (c : CCache K V) (k : K) (v : V) (now : Nat)
    (h : mapFind c.cache_map k = none) (h2 : c.max_size ≤ c.cache_map.length) :
    c.put k v now = (none,
      ((c.evict_lru).2.1.add_new_entry k v now).1,
      (c.evict_lru).2.2 ++ ((c.evict_lru).2.1.add_new_entry k v now).2) := by
  simp [CCache.put, h, h2]

theorem evict_lru_state_nil (c : CCache K V) (h : c.access_order = []) :
    c.evict_lru = ((), c, []) := by
  simp [CCache.evict_lru, h]

theorem evict_lru_state_cons (c : CCache K V) (k : K) (t : List K)
    (h : c.access_order = k :: t) :
    c.evict_lru = ((), (c.evict k).2.1, (c.evict k).2.2) := by
  simp [CCache.evict_lru, h]

theorem clear_state (c : CCache K V) :
    c.clear = ({ c with cache_map := ([] : List (K × CacheEntry V)),
                        access_order := ([] : List K) },
               c.log "CLEAR: All cache entries have been removed.") := rfl

theorem with_cache_hit (c : CCache K V) (k : K) (f : Unit → Option V) (now : Nat) (v : V)
    (h : (c.get k now).1 = some v) :
    c.with_cache k f now = (some v, (c.get k now).2.1,
      (c.get k now).2.2 ++ (c.get k now).2.1.log ("HIT: " ++ c.key_to_string k), false) := by
  simp [CCache.with_cache, h]

theorem with_cache_miss_some (c : CCache K V) (k : K) (f : Unit → Option V) (now : Nat)
    (v : V) (h : (c.get k now).1 = none) (h2 : f () = some v) :
    c.with_cache k f now = (some v, ((c.get k now).2.1.put k v now).2.1,
      (c.get k now).2.2 ++ (c.get k now).2.1.log ("MISS: " ++ c.key_to_string k) ++
        ((c.get k now).2.1.put k v now).2.2, true) := by
  simp [CCache.with_cache, h, h2]

theorem with_cache_miss_none (c : CCache K V) (k : K) (f : Unit → Option V) (now : Nat)
    (h : (c.get k now).1 = none) (h2 : f () = none) :
    c.with_cache k f now = (none, (c.get k now).2.1,
      (c.get k now).2.2 ++ (c.get k now).2.1.log ("MISS: " ++ c.key_to_string k), true) := by
  simp [CCache.with_cache, h, h2]

end OpLemmas

section ConfigLemmas

variable {K V : Type} [DecidableEq K]

theorem sameConfig_refl (c : CCache K V) : SameConfig c c := ⟨rfl, rfl, rfl, rfl, rfl⟩

theorem sameConfig_trans {c c1 c2 : CCache K V} (h1 : SameConfig c c1)
    (h2 : SameConfig c1 c2) : SameConfig c c2 :=
  ⟨h2.1.trans h1.1, h2.2.1.trans h1.2.1, h2.2.2.1.trans h1.2.2.1,
   h2.2.2.2.1.trans h1.2.2.2.1, h2.2.2.2.2.trans h1.2.2.2.2⟩

theorem evict_config (c : CCache K V) (k : K) : SameConfig c ((c.evict k).2.1) := by
  cases h : mapFind c.cache_map k with
  | none => rw [evict_state_none c k h]; exact sameConfig_refl c
  | some e => rw [evict_state_some c k e h]; exact ⟨rfl, rfl, rfl, rfl, rfl⟩

theorem evict_lru_config (c : CCache K V) : SameConfig c ((c.evict_lru).2.1) := by
  cases h : c.access_order with
  | nil => rw [evict_lru_state_nil c h]; exact sameConfig_refl c
  | cons hd tl => rw [evict_lru_state_cons c hd tl h]; exact evict_config c hd

theorem get_config (c : CCache K V) (k : K) (now : Nat) :
    SameConfig c ((c.get k now).2.1) := by
  cases h : mapFind c.cache_map k with
  | none => rw [get_state_none c k now h]; exact sameConfig_refl c
  | some e =>
    cases h2 : c.is_expired e.timestamp now with
    | true => rw [get_state_expired c k now e h h2]; exact evict_config c k
    | false => rw [get_state_fresh c k now e h h2]; exact ⟨rfl, rfl, rfl, rfl, rfl⟩

theorem add_new_entry_config (c : CCache K V) (k : K) (v : V) (now : Nat) :
    SameConfig c ((c.add_new_entry k v now).1) := ⟨rfl, rfl, rfl, rfl, rfl⟩

theorem put_config (c : CCache K V) (k : K) (v : V) (now : Nat) :
    SameConfig c ((c.put k v now).2.1) := by
  cases h : mapFind c.cache_map k with
  | some e => rw [put_state_existing c k v now e h]; exact ⟨rfl, rfl, rfl, rfl, rfl⟩
  | none =>
    by_cases h2 : c.max_size ≤ c.cache_map.length
    · rw [put_state_new_full c k v now h h2]
      exact sameConfig_trans (evict_lru_config c) (add_new_entry_config _ k v now)
    · rw [put_state_new_room c k v now h (Nat.not_le.1 h2)]
      exact ⟨rfl, rfl, rfl, rfl, rfl⟩

theorem clear_config (c : CCache K V) : SameConfig c ((c.clear).1) :=
  ⟨rfl, rfl, rfl, rfl, rfl⟩

theorem with_cache_config (c : CCache K V) (k : K) (f : Unit → Option V) (now : Nat) :
    SameConfig c ((c.with_cache k f now).2.1) := by
  cases h : (c.get k now).1 with
  | some v => rw [with_cache_hit c k f now v h]; exact get_config c k now
  | none =>
    cases h2 : f () with
    | some v =>
      rw [with_cache_miss_some c k f now v h h2]
      exact sameConfig_trans (get_config c k now) (put_config _ k v now)
    | none => rw [with_cache_miss_none c k f now h h2]; exact get_config c k now

theorem applyOp_config (c : CCache K V) (op : CacheOp K V) :
    SameConfig c (applyOp c op) := by
  cases op with
  | putOp k v now => exact put_config c k v now
  | getOp k now => exact get_config c k now
  | evictOp k => exact evict_config c k
  | evictLruOp => exact evict_lru_config c
  | clearOp => exact clear_config c
  | withCacheOp k ov now => exact with_cache_config c k (fun _ => ov) now

theorem runOps_config (c : CCache K V) (ops : List (CacheOp K V)) :
    SameConfig c (runOps c ops) := by
  induction ops generalizing c with
  | nil => exact sameConfig_refl c
  | cons op rest ih =>
    exact sameConfig_trans (applyOp_config c op) (ih (applyOp c op))

end ConfigLemmas

section WFLemmas

variable {K V : Type} [DecidableEq K]

theorem exists_mapFind_of_mem (m : List (K × CacheEntry V)) (k : K) (h : k ∈ keysOf m) :
    ∃ e, mapFind m k = some e := by
  have h2 := (mapFind_isSome_iff m k).2 h
  cases hf : mapFind m k with
  | none => rw [hf] at h2; simp at h2
  | some e => exact ⟨e, rfl⟩

theorem order_nil_keys_nil (c : CCache K V) (hw : WF c) (h : c.access_order = []) :
    c.cache_map.length = 0 := by
  cases hkeys : keysOf c.cache_map with
  | nil => rw [← length_keysOf, hkeys]; rfl
  | cons a t =>
    have ha := (hw.mem_iff a).1 (by rw [hkeys]; exact List.mem_cons_self a t)
    rw [h] at ha
    exact absurd ha (List.not_mem_nil a)

theorem WF_evict (c : CCache K V) (k : K) (hw : WF c) : WF ((c.evict k).2.1) := by
  cases h : mapFind c.cache_map k with
  | none => rw [evict_state_none c k h]; exact hw
  | some e =>
    rw [evict_state_some c k e h]
    refine ⟨?_, ?_, ?_, ?_, hw.pos⟩
    · dsimp only
      rw [keysOf_mapErase]
      exact nodup_listRemove _ _ hw.nodup_keys
    · exact nodup_listRemove _ _ hw.nodup_order
    · intro j
      dsimp only
      rw [keysOf_mapErase, mem_listRemove_iff, mem_listRemove_iff]
      constructor
      · rintro ⟨hj, hne⟩
        exact ⟨(hw.mem_iff j).1 hj, hne⟩
      · rintro ⟨hj, hne⟩
        exact ⟨(hw.mem_iff j).2 hj, hne⟩
    · exact le_trans (length_mapErase_le _ _) hw.size_le

theorem WF_promote (c : CCache K V) (k : K) (hw : WF c) (hk : k ∈ keysOf c.cache_map) :
    WF (c.update_access_order k) := by
  refine ⟨hw.nodup_keys, ?_, ?_, hw.size_le, hw.pos⟩
  · dsimp [CCache.update_access_order]
    exact nodup_append_singleton _ _ (nodup_listRemove _ _ hw.nodup_order)
      (not_mem_listRemove_self _ _)
  · intro j
    dsimp [CCache.update_access_order]
    rw [List.mem_append, mem_listRemove_iff]
    constructor
    · intro hj
      by_cases hjk : j = k
      · right
        simp [hjk]
      · left
        exact ⟨(hw.mem_iff j).1 hj, hjk⟩
    · intro hj
      rcases hj with ⟨hj, _⟩ | hj
      · exact (hw.mem_iff j).2 hj
      · have hjk : j = k := by simpa using hj
        subst hjk
        exact hk

theorem WF_mapSet_mem (c : CCache K V) (k : K) (e : CacheEntry V) (hw : WF c)
    (hk : k ∈ keysOf c.cache_map) : WF { c with cache_map := mapSet c.cache_map k e } := by
  refine ⟨?_, hw.nodup_order, ?_, ?_, hw.pos⟩
  · dsimp only
    rw [keysOf_mapSet_of_mem _ _ _ hk]
    exact hw.nodup_keys
  · intro j
    dsimp only
    rw [keysOf_mapSet_of_mem _ _ _ hk]
    exact hw.mem_iff j
  · dsimp only
    rw [length_mapSet_of_mem _ _ _ hk]
    exact hw.size_le

theorem WF_add_new (c : CCache K V) (k : K) (v : V) (now : Nat) (hw : WF c)
    (hk : k ∉ keysOf c.cache_map) (hlen : c.cache_map.length < c.max_size) :
    WF ((c.add_new_entry k v now).1) := by
  refine ⟨?_, ?_, ?_, ?_, hw.pos⟩
  · dsimp [CCache.add_new_entry]
    rw [keysOf_mapSet_of_not_mem _ _ _ hk]
    exact nodup_append_singleton _ _ hw.nodup_keys hk
  · dsimp [CCache.add_new_entry]
    refine nodup_append_singleton _ _ hw.nodup_order ?_
    exact fun hmem => hk ((hw.mem_iff k).2 hmem)
  · intro j
    dsimp [CCache.add_new_entry]
    rw [keysOf_mapSet_of_not_mem _ _ _ hk, List.mem_append, List.mem_append]
    exact or_congr_left (hw.mem_iff j)
  · dsimp [CCache.add_new_entry]
    rw [length_mapSet_of_not_mem _ _ _ hk]
    omega

theorem WF_evict_lru (c : CCache K V) (hw : WF c) : WF ((c.evict_lru).2.1) := by
  cases h : c.access_order with
  | nil => rw [evict_lru_state_nil c h]; exact hw
  | cons hd tl => rw [evict_lru_state_cons c hd tl h]; exact WF_evict c hd hw

theorem evict_preserves_absent (c : CCache K V) (k j : K)
    (h : mapFind c.cache_map j = none) :
    mapFind ((c.evict k).2.1).cache_map j = none := by
  cases hf : mapFind c.cache_map k with
  | none => rw [evict_state_none c k hf]; exact h
  | some e =>
    rw [evict_state_some c k e hf]
    dsimp only
    by_cases hjk : j = k
    · subst hjk
      exact mapFind_mapErase_self _ _
    · rw [mapFind_mapErase_ne _ _ _ hjk]
      exact h

theorem evict_lru_preserves_absent (c : CCache K V) (j : K)
    (h : mapFind c.cache_map j = none) :
    mapFind ((c.evict_lru).2.1).cache_map j = none := by
  cases horder : c.access_order with
  | nil => rw [evict_lru_state_nil c horder]; exact h
  | cons hd tl =>
    rw [evict_lru_state_cons c hd tl horder]
    exact evict_preserves_absent c hd j h

theorem evict_lru_shrinks (c : CCache K V) (hw : WF c)
    (h2 : c.max_size ≤ c.cache_map.length) :
    ((c.evict_lru).2.1).cache_map.length < c.max_size := by
  cases horder : c.access_order with
  | nil =>
    have h3 := order_nil_keys_nil c hw horder
    have h4 := hw.pos
    omega
  | cons hd tl =>
    rw [evict_lru_state_cons c hd tl horder]
    have hhd : hd ∈ keysOf c.cache_map :=
      (hw.mem_iff hd).2 (by rw [horder]; exact List.mem_cons_self hd tl)
    obtain ⟨ehd, hehd⟩ := exists_mapFind_of_mem c.cache_map hd hhd
    rw [evict_state_some c hd ehd hehd]
    dsimp only
    have h5 := length_mapErase_of_mem c.cache_map hd hw.nodup_keys hhd
    have h6 := hw.size_le
    omega

theorem WF_put (c : CCache K V) (k : K) (v : V) (now : Nat) (hw : WF c) :
    WF ((c.put k v now).2.1) := by
  cases h : mapFind c.cache_map k with
  | some e =>
    rw [put_state_existing c k v now e h]
    have hk : k ∈ keysOf c.cache_map :=
      (mapFind_isSome_iff _ _).1 (by rw [h]; rfl)
    have h1 := WF_mapSet_mem c k ⟨v, now⟩ hw hk
    have hk1 : k ∈ keysOf ({ c with cache_map := mapSet c.cache_map k ⟨v, now⟩ } :
        CCache K V).cache_map := by
      dsimp only
      rw [keysOf_mapSet_of_mem _ _ _ hk]
      exact hk
    exact WF_promote _ k h1 hk1
  | none =>
    have hk : k ∉ keysOf c.cache_map := (mapFind_eq_none_iff _ _).1 h
    by_cases h2 : c.max_size ≤ c.cache_map.length
    · rw [put_state_new_full c k v now h h2]
      have hwE : WF ((c.evict_lru).2.1) := WF_evict_lru c hw
      have hkE : k ∉ keysOf ((c.evict_lru).2.1).cache_map :=
        (mapFind_eq_none_iff _ _).1 (evict_lru_preserves_absent c k h)
      have hlenE : ((c.evict_lru).2.1).cache_map.length < ((c.evict_lru).2.1).max_size := by
        have h3 := evict_lru_shrinks c hw h2
        have h4 : ((c.evict_lru).2.1).max_size = c.max_size := (evict_lru_config c).1
        omega
      exact WF_add_new _ k v now hwE hkE hlenE
    · rw [put_state_new_room c k v now h (Nat.not_le.1 h2)]
      have hlen : c.cache_map.length < c.max_size := Nat.not_le.1 h2
      exact WF_add_new c k v now hw hk hlen

theorem WF_get (c : CCache K V) (k : K) (now : Nat) (hw : WF c) :
    WF ((c.get k now).2.1) := by
  cases h : mapFind c.cache_map k with
  | none => rw [get_state_none c k now h]; exact hw
  | some e =>
    cases h2 : c.is_expired e.timestamp now with
    | true => rw [get_state_expired c k now e h h2]; exact WF_evict c k hw
    | false =>
      rw [get_state_fresh c k now e h h2]
      exact WF_promote c k hw ((mapFind_isSome_iff _ _).1 (by rw [h]; rfl))

theorem WF_clear (c : CCache K V) (hw : WF c) : WF ((c.clear).1) := by
  refine ⟨?_, ?_, ?_, ?_, hw.pos⟩
  · simp [CCache.clear, keysOf_nil]
  · simp [CCache.clear]
  · intro j
    simp [CCache.clear, keysOf_nil]
  · simp [CCache.clear]

theorem WF_with_cache (c : CCache K V) (k : K) (f : Unit → Option V) (now : Nat)
    (hw : WF c) : WF ((c.with_cache k f now).2.1) := by
  have hg := WF_get c k now hw
  cases h : (c.get k now).1 with
  | some v => rw [with_cache_hit c k f now v h]; exact hg
  | none =>
    cases h2 : f () with
    | some v => rw [with_cache_miss_some c k f now v h h2]; exact WF_put _ k v now hg
    | none => rw [with_cache_miss_none c k f now h h2]; exact hg

theorem WF_applyOp (c : CCache K V) (op : CacheOp K V) (hw : WF c) :
    WF (applyOp c op) := by
  cases op with
  | putOp k v now => exact WF_put c k v now hw
  | getOp k now => exact WF_get c k now hw
  | evictOp k => exact WF_evict c k hw
  | evictLruOp => exact WF_evict_lru c hw
  | clearOp => exact WF_clear c hw
  | withCacheOp k ov now => exact WF_with_cache c k (fun _ => ov) now hw

theorem WF_runOps (c : CCache K V) (ops : List (CacheOp K V)) (hw : WF c) :
    WF (runOps c ops) := by
  induction ops generalizing c with
  | nil => exact hw
  | cons op rest ih => exact ih (applyOp c op) (WF_applyOp c op hw)

theorem construct_ok {ms ttl : Int} {hl he : Bool} {kts : K → String} {c : CCache K V}
    (h1 : 0 < ms) (h2 : 0 < ttl)
    (h : CCache.construct ms ttl hl he kts = Except.ok c) :
    c = { max_size := ms.toNat, ttl_millis := ttl.toNat, cache_map := [],
          access_order := [], has_logger := hl, has_evict_cb := he,
          key_to_string := kts } := by
  have hn1 : ¬ms ≤ 0 := by omega
  have hn2 : ¬ttl ≤ 0 := by omega
  simp [CCache.construct, hn1, hn2] at h
  exact h.symm

theorem WF_init (ms ttl : Int) (hl he : Bool) (kts : K → String) (h1 : 0 < ms) :
    WF ({ max_size := ms.toNat, ttl_millis := ttl.toNat, cache_map := [],
          access_order := [], has_logger := hl, has_evict_cb := he,
          key_to_string := kts } : CCache K V) := by
  refine ⟨List.nodup_nil, List.nodup_nil, fun j => Iff.rfl, by simp, ?_⟩
  show 0 < ms.toNat
  omega

end WFLemmas

section EventLemmas

variable {K V : Type} [DecidableEq K]

theorem evictEvents_append (a b : List (CEvent K V)) :
    evictEvents (a ++ b) = evictEvents a ++ evictEvents b := by
  induction a with
  | nil => rfl
  | cons ev rest ih => cases ev <;> simp [evictEvents, ih]

theorem evictEvents_log (c : CCache K V) (msg : String) :
    evictEvents (c.log msg) = [] := by
  cases h : c.has_logger <;> simp [CCache.log, h, evictEvents]

theorem put_stores (c : CCache K V) (k : K) (v : V) (now : Nat) :
    mapFind ((c.put k v now).2.1).cache_map k = some ⟨v, now⟩ := by
  cases h : mapFind c.cache_map k with
  | some e =>
    rw [put_state_existing c k v now e h]
    exact mapFind_mapSet_self _ _ _
  | none =>
    by_cases h2 : c.max_size ≤ c.cache_map.length
    · rw [put_state_new_full c k v now h h2]
      dsimp [CCache.add_new_entry]
      exact mapFind_mapSet_self _ _ _
    · rw [put_state_new_room c k v now h (Nat.not_le.1 h2)]
      exact mapFind_mapSet_self _ _ _

end EventLemmas

/-- C1: for every key, get(key) returns empty when the key is absent; when
the key is present but expired (now - timestamp > ttl) get evicts the
entry, firing the eviction hook exactly once with that key and its stored
value, and returns empty; when the key is present and fresh, get promotes
it to the most-recently-used position and returns its value. -/
theorem ccache_claim_C1 {K V : Type} [DecidableEq K] (c : CCache K V) (k : K) (now : Nat) :
    (mapFind c.cache_map k = none → c.get k now = (none, c, [])) ∧
    (∀ e : CacheEntry V, mapFind c.cache_map k = some e →
      c.is_expired e.timestamp now = true →
      (c.get k now).1 = none ∧
      mapFind ((c.get k now).2.1).cache_map k = none ∧
      k ∉ ((c.get k now).2.1).access_order ∧
      (c.has_evict_cb = true → evictEvents (c.get k now).2.2 = [(k, e.value)])) ∧
    (∀ e : CacheEntry V, mapFind c.cache_map k = some e →
      c.is_expired e.timestamp now = false →
      (c.get k now).1 = some e.value ∧
      ((c.get k now).2.1).access_order = listRemove c.access_order k ++ [k]) := by
  refine ⟨?_, ?_, ?_⟩
  · intro h
    exact get_state_none c k now h
  · intro e h h2
    rw [get_state_expired c k now e h h2, evict_state_some c k e h]
    refine ⟨rfl, ?_, ?_, ?_⟩
    · exact mapFind_mapErase_self _ _
    · exact not_mem_listRemove_self _ _
    · intro hcb
      dsimp only
      rw [hcb]
      cases hlog : c.has_logger <;> simp [CCache.log, hlog, evictEvents]
  · intro e h h2
    rw [get_state_fresh c k now e h h2]
    exact ⟨rfl, rfl⟩

/-- Witness for C1 at concrete inputs against a cache with ttl 5000 ms
holding the entry (1, 100) stamped at time 0: key 2 is absent; key 1 is
expired when queried at time 6000 (the hook fires once with (1, 100));
key 1 is fresh when queried at time 4000. -/
theorem ccache_claim_C1_witness :
    (cacheOne.get 2 6000 = (none, cacheOne, [])) ∧
    ((cacheOne.get 1 6000).1 = none ∧
      mapFind ((cacheOne.get 1 6000).2.1).cache_map 1 = none ∧
      (1 : Nat) ∉ ((cacheOne.get 1 6000).2.1).access_order ∧
      evictEvents (cacheOne.get 1 6000).2.2 = [(1, 100)]) ∧
    ((cacheOne.get 1 4000).1 = some 100 ∧
      ((cacheOne.get 1 4000).2.1).access_order =
        listRemove cacheOne.access_order 1 ++ [1]) := by
  refine ⟨?_, ?_, ?_⟩
  · exact (ccache_claim_C1 cacheOne 2 6000).1 rfl
  · have h := (ccache_claim_C1 cacheOne 1 6000).2.1 ⟨100, 0⟩ rfl rfl
    exact ⟨h.1, h.2.1, h.2.2.1, h.2.2.2 rfl⟩
  · exact (ccache_claim_C1 cacheOne 1 4000).2.2 ⟨100, 0⟩ rfl rfl

/-- C2: put on an existing key replaces the stored value and timestamp,
promotes the key to most-recently-used, returns the old value and leaves
every other entry unchanged; put of a new key into a store holding
max_size entries first evicts the current least-recently-used entry (the
recency head, with the eviction hook reporting it), then inserts the new
entry at the most-recently-used position and returns empty; concretely,
with max_size 3 and puts of keys 1, 2, 3, 4 with no intervening gets,
key 1 is evicted and keys 2, 3, 4 remain. -/
theorem ccache_claim_C2 {K V : Type} [DecidableEq K] (c : CCache K V) (k : K) (v : V)
    (now : Nat) :
    (∀ e : CacheEntry V, mapFind c.cache_map k = some e →
      (c.put k v now).1 = some e.value ∧
      mapFind ((c.put k v now).2.1).cache_map k = some ⟨v, now⟩ ∧
      ((c.put k v now).2.1).access_order = listRemove c.access_order k ++ [k] ∧
      (∀ j, j ≠ k → mapFind ((c.put k v now).2.1).cache_map j = mapFind c.cache_map j)) ∧
    (∀ (hd : K) (t : List K), mapFind c.cache_map k = none →
      c.cache_map.length = c.max_size → c.access_order = hd :: t →
      ∀ eh : CacheEntry V, mapFind c.cache_map hd = some eh →
      (c.put k v now).1 = none ∧
      mapFind ((c.put k v now).2.1).cache_map hd = none ∧
      mapFind ((c.put k v now).2.1).cache_map k = some ⟨v, now⟩ ∧
      ((c.put k v now).2.1).access_order = listRemove c.access_order hd ++ [k] ∧
      (c.has_evict_cb = true → evictEvents (c.put k v now).2.2 = [(hd, eh.value)])) ∧
    (mapFind cacheLRUrun.cache_map 1 = none ∧
      mapFind cacheLRUrun.cache_map 2 = some ⟨200, 1⟩ ∧
      mapFind cacheLRUrun.cache_map 3 = some ⟨300, 2⟩ ∧
      mapFind cacheLRUrun.cache_map 4 = some ⟨400, 3⟩ ∧
      cacheLRUrun.access_order = [2, 3, 4]) := by
  refine ⟨?_, ?_, ?_⟩
  · intro e h
    rw [put_state_existing c k v now e h]
    refine ⟨rfl, ?_, rfl, ?_⟩
    · exact mapFind_mapSet_self _ _ _
    · intro j hj
      exact mapFind_mapSet_ne _ _ _ _ hj
  · intro hd t hnone hlen horder eh heh
    have hfull : c.max_size ≤ c.cache_map.length := le_of_eq hlen.symm
    have hne : hd ≠ k := by
      intro hh
      rw [hh, hnone] at heh
      exact Option.noConfusion heh
    rw [put_state_new_full c k v now hnone hfull, evict_lru_state_cons c hd t horder,
        evict_state_some c hd eh heh]
    dsimp only [CCache.add_new_entry]
    refine ⟨rfl, ?_, ?_, rfl, ?_⟩
    · rw [mapFind_mapSet_ne _ _ _ _ hne]
      exact mapFind_mapErase_self _ _
    · exact mapFind_mapSet_self _ _ _
    · intro hcb
      cases hlog : c.has_logger <;>
        simp [evictEvents_append, evictEvents_log, hcb, hlog, evictEvents, CCache.log]
  · exact ⟨by decide, by decide, by decide, by decide, by decide⟩

/-- Witness for C2 at concrete inputs: updating the existing key 1 of the
one-entry cache returns the old value 100 and restamps the entry; putting
the new key 4 into the full three-entry cache evicts the recency head 1
and inserts 4 at the most-recently-used position. -/
theorem ccache_claim_C2_witness :
    ((cacheOne.put 1 150 10).1 = some 100 ∧
      mapFind ((cacheOne.put 1 150 10).2.1).cache_map 1 = some ⟨150, 10⟩) ∧
    ((cacheFull.put 4 400 3).1 = none ∧
      mapFind ((cacheFull.put 4 400 3).2.1).cache_map 1 = none ∧
      mapFind ((cacheFull.put 4 400 3).2.1).cache_map 4 = some ⟨400, 3⟩ ∧
      ((cacheFull.put 4 400 3).2.1).access_order =
        listRemove cacheFull.access_order 1 ++ [4] ∧
      evictEvents (cacheFull.put 4 400 3).2.2 = [(1, 100)]) := by
  constructor
  · have h := (ccache_claim_C2 cacheOne 1 150 10).1 ⟨100, 0⟩ rfl
    exact ⟨h.1, h.2.1⟩
  · have h := (ccache_claim_C2 cacheFull 4 400 3).2.1 1 [2, 3] rfl rfl rfl ⟨100, 0⟩ rfl
    exact ⟨h.1, h.2.1, h.2.2.1, h.2.2.2.1, h.2.2.2.2 rfl⟩

/-- C3: capacity invariant — a cache produced by the validated constructor
with positive max_size holds at most max_size entries after every sequence
of put, get, evict, evict_lru, clear and with_cache operations. -/
theorem ccache_claim_C3 {K V : Type} [DecidableEq K] (ms ttl : Int) (hl he : Bool)
    (kts : K → String) (c : CCache K V) (h1 : 0 < ms) (h2 : 0 < ttl)
    (hc : CCache.construct ms ttl hl he kts = Except.ok c)
    (ops : List (CacheOp K V)) :
    (runOps c ops).cache_map.length ≤ ms.toNat := by
  have hceq := construct_ok h1 h2 hc
  have hw := WF_runOps c ops (by rw [hceq]; exact WF_init ms ttl hl he kts h1)
  have hcfg := (runOps_config c ops).1
  have hms : c.max_size = ms.toNat := by rw [hceq]
  calc (runOps c ops).cache_map.length ≤ (runOps c ops).max_size := hw.size_le
    _ = c.max_size := hcfg
    _ = ms.toNat := hms

/-- Witness for C3: the constructor applied to max_size 3 and ttl 5000
yields the empty demonstration cache, and after a concrete sequence
exercising every operation the store holds at most 3 entries. -/
theorem ccache_claim_C3_witness :
    (runOps cacheEmpty3 witnessOps).cache_map.length ≤ (3 : Int).toNat :=
  ccache_claim_C3 3 5000 true true natKeyRepr cacheEmpty3 (by decide) (by decide)
    rfl witnessOps

/-- C4: bijection invariant — after every sequence of operations on a
validly constructed cache, a key is in the entry map exactly when it is in
the recency sequence, the recency sequence has no duplicates (so each
stored key appears in it exactly once), and the map keys are duplicate
free. -/
theorem ccache_claim_C4 {K V : Type} [DecidableEq K] (ms ttl : Int) (hl he : Bool)
    (kts : K → String) (c : CCache K V) (h1 : 0 < ms) (h2 : 0 < ttl)
    (hc : CCache.construct ms ttl hl he kts = Except.ok c)
    (ops : List (CacheOp K V)) :
    (∀ j : K, j ∈ keysOf (runOps c ops).cache_map ↔ j ∈ (runOps c ops).access_order) ∧
    (runOps c ops).access_order.Nodup ∧
    (keysOf (runOps c ops).cache_map).Nodup ∧
    (∀ j : K, j ∈ keysOf (runOps c ops).cache_map →
      (runOps c ops).access_order.count j = 1) := by
  have hceq := construct_ok h1 h2 hc
  have hw := WF_runOps c ops (by rw [hceq]; exact WF_init ms ttl hl he kts h1)
  refine ⟨hw.mem_iff, hw.nodup_order, hw.nodup_keys, ?_⟩
  intro j hj
  exact List.count_eq_one_of_mem hw.nodup_order ((hw.mem_iff j).1 hj)

/-- Witness for C4: the bijection holds concretely after running the
operation sequence of the demonstration driver on the freshly constructed
cache. -/
theorem ccache_claim_C4_witness :
    (∀ j : Nat, j ∈ keysOf (runOps cacheEmpty3 witnessOps).cache_map ↔
      j ∈ (runOps cacheEmpty3 witnessOps).access_order) ∧
    (runOps cacheEmpty3 witnessOps).access_order.Nodup ∧
    (keysOf (runOps cacheEmpty3 witnessOps).cache_map).Nodup ∧
    (∀ j : Nat, j ∈ keysOf (runOps cacheEmpty3 witnessOps).cache_map →
      (runOps cacheEmpty3 witnessOps).access_order.count j = 1) :=
  ccache_claim_C4 3 5000 true true natKeyRepr cacheEmpty3 (by decide) (by decide)
    rfl witnessOps

/-- C5: with_cache returns the cached value without invoking compute when
get hits; on a miss it invokes compute, and when compute yields a value it
stores it via put (so an immediate or later-but-fresh get returns it) and
returns it; when compute yields nothing, nothing is stored (the state is
exactly the post-get state) and empty is returned. -/
theorem ccache_claim_C5 {K V : Type} [DecidableEq K] (c : CCache K V) (k : K)
    (f : Unit → Option V) (now : Nat) :
    (∀ v : V, (c.get k now).1 = some v →
      (c.with_cache k f now).1 = some v ∧
      (c.with_cache k f now).2.2.2 = false ∧
      (c.with_cache k f now).2.1 = (c.get k now).2.1) ∧
    ((c.get k now).1 = none →
      (c.with_cache k f now).2.2.2 = true ∧
      (∀ v : V, f () = some v →
        (c.with_cache k f now).1 = some v ∧
        mapFind ((c.with_cache k f now).2.1).cache_map k = some ⟨v, now⟩ ∧
        (∀ now2 : Nat, now2 - now ≤ ((c.with_cache k f now).2.1).ttl_millis →
          (((c.with_cache k f now).2.1).get k now2).1 = some v)) ∧
      (f () = none →
        (c.with_cache k f now).1 = none ∧
        (c.with_cache k f now).2.1 = (c.get k now).2.1)) := by
  constructor
  · intro v h
    rw [with_cache_hit c k f now v h]
    exact ⟨rfl, rfl, rfl⟩
  · intro h
    refine ⟨?_, ?_, ?_⟩
    · cases h2 : f () with
      | some v => rw [with_cache_miss_some c k f now v h h2]
      | none => rw [with_cache_miss_none c k f now h h2]
    · intro v h2
      rw [with_cache_miss_some c k f now v h h2]
      have hfind := put_stores ((c.get k now).2.1) k v now
      refine ⟨rfl, hfind, ?_⟩
      intro now2 hle
      dsimp only at hle ⊢
      have hnotexp : (((c.get k now).2.1.put k v now).2.1).is_expired now now2 = false := by
        have hn : ¬((((c.get k now).2.1.put k v now).2.1).ttl_millis < now2 - now) := by
          omega
        simp [CCache.is_expired, hn]
      rw [get_state_fresh (((c.get k now).2.1.put k v now).2.1) k now2 ⟨v, now⟩
        hfind hnotexp]
    · intro h2
      rw [with_cache_miss_none c k f now h h2]
      exact ⟨rfl, rfl⟩

/-- Witness for C5: a hit on key 1 returns the cached 100 without invoking
compute; a miss on key 5 with compute returning 500 stores and returns 500
and a later fresh get sees it; a miss whose compute yields nothing returns
empty. -/
theorem ccache_claim_C5_witness :
    ((cacheOne.with_cache 1 (fun _ => some 999) 1000).1 = some 100 ∧
      (cacheOne.with_cache 1 (fun _ => some 999) 1000).2.2.2 = false) ∧
    ((cacheOne.with_cache 5 (fun _ => some 500) 0).1 = some 500 ∧
      (((cacheOne.with_cache 5 (fun _ => some 500) 0).2.1).get 5 400).1 = some 500) ∧
    ((cacheOne.with_cache 5 (fun _ => none) 0).1 = none ∧
      (cacheOne.with_cache 5 (fun _ => none) 0).2.2.2 = true) := by
  refine ⟨?_, ?_, ?_⟩
  · have h := (ccache_claim_C5 cacheOne 1 (fun _ => some 999) 1000).1 100 rfl
    exact ⟨h.1, h.2.1⟩
  · have h := ((ccache_claim_C5 cacheOne 5 (fun _ => some 500) 0).2 rfl).2.1 500 rfl
    exact ⟨h.1, h.2.2 400 (by decide)⟩
  · refine ⟨(((ccache_claim_C5 cacheOne 5 (fun _ => none) 0).2 rfl).2.2 rfl).1, ?_⟩
    exact ((ccache_claim_C5 cacheOne 5 (fun _ => none) 0).2 rfl).1

/-- C6: evict(key) removes a present entry unconditionally (the definition
consults no clock and no expiry check), returns the removed value, fires
the eviction hook exactly once with the key and value, and leaves the other
entries untouched; on an absent key it returns empty, produces no hook
invocation at all, and leaves the cache state unchanged. -/
theorem ccache_claim_C6 {K V : Type} [DecidableEq K] (c : CCache K V) (k : K) :
    (∀ e : CacheEntry V, mapFind c.cache_map k = some e →
      (c.evict k).1 = some e.value ∧
      mapFind ((c.evict k).2.1).cache_map k = none ∧
      k ∉ ((c.evict k).2.1).access_order ∧
      (c.has_evict_cb = true → evictEvents (c.evict k).2.2 = [(k, e.value)]) ∧
      (∀ j, j ≠ k → mapFind ((c.evict k).2.1).cache_map j = mapFind c.cache_map j)) ∧
    (mapFind c.cache_map k = none →
      (c.evict k).1 = none ∧ (c.evict k).2.2 = [] ∧ (c.evict k).2.1 = c) := by
  constructor
  · intro e h
    rw [evict_state_some c k e h]
    refine ⟨rfl, ?_, ?_, ?_, ?_⟩
    · exact mapFind_mapErase_self _ _
    · exact not_mem_listRemove_self _ _
    · intro hcb
      dsimp only
      cases hlog : c.has_logger <;> simp [CCache.log, hlog, hcb, evictEvents]
    · intro j hj
      exact mapFind_mapErase_ne _ _ _ hj
  · intro h
    rw [evict_state_none c k h]
    exact ⟨rfl, rfl, rfl⟩

/-- Witness for C6: evicting the present key 1 of the one-entry cache
returns 100, removes it and fires the hook once; evicting the absent key 2
returns empty with no events and an unchanged state. -/
theorem ccache_claim_C6_witness :
    ((cacheOne.evict 1).1 = some 100 ∧
      mapFind ((cacheOne.evict 1).2.1).cache_map 1 = none ∧
      evictEvents (cacheOne.evict 1).2.2 = [(1, 100)]) ∧
    ((cacheOne.evict 2).1 = none ∧ (cacheOne.evict 2).2.2 = [] ∧
      (cacheOne.evict 2).2.1 = cacheOne) := by
  constructor
  · have h := (ccache_claim_C6 cacheOne 1).1 ⟨100, 0⟩ rfl
    exact ⟨h.1, h.2.1, h.2.2.2.1 rfl⟩
  · exact (ccache_claim_C6 cacheOne 2).2 rfl

/-- C7 counterexample: evict_lru on the one-entry cache (entry (1, 100) at
the recency head) does remove that entry — the eviction hook reports
(1, 100) and the key is gone afterwards — yet the operation's returned
payload is the unit value: CCache::evict_lru is declared void in the
source (line 117) and returns no Option<V> carrying the removed value. -/
theorem ccache_claim_C7_counterexample :
    (cacheOne.evict_lru).1 = () ∧
    evictEvents (cacheOne.evict_lru).2.2 = [(1, 100)] ∧
    mapFind ((cacheOne.evict_lru).2.1).cache_map 1 = none := by
  refine ⟨rfl, ?_, ?_⟩ <;> decide

/-- C7 (amended): evict_lru() removes the current recency-head key via
evict but returns no value (the C++ function is void); when the recency
list — equivalently, under the bijection invariant, the store — is empty
it is a no-op producing no events. -/
theorem ccache_claim_C7_amended {K V : Type} [DecidableEq K] (c : CCache K V) :
    (c.access_order = [] → c.evict_lru = ((), c, [])) ∧
    (∀ (hd : K) (t : List K), c.access_order = hd :: t →
      ∀ e : CacheEntry V, mapFind c.cache_map hd = some e →
      mapFind ((c.evict_lru).2.1).cache_map hd = none ∧
      hd ∉ ((c.evict_lru).2.1).access_order ∧
      (c.has_evict_cb = true → evictEvents (c.evict_lru).2.2 = [(hd, e.value)]) ∧
      (∀ j, j ≠ hd → mapFind ((c.evict_lru).2.1).cache_map j = mapFind c.cache_map j)) := by
  constructor
  · intro h
    exact evict_lru_state_nil c h
  · intro hd t horder e he
    rw [evict_lru_state_cons c hd t horder, evict_state_some c hd e he]
    refine ⟨?_, ?_, ?_, ?_⟩
    · exact mapFind_mapErase_self _ _
    · exact not_mem_listRemove_self _ _
    · intro hcb
      dsimp only
      cases hlog : c.has_logger <;> simp [CCache.log, hlog, hcb, evictEvents]
    · intro j hj
      exact mapFind_mapErase_ne _ _ _ hj

/-- Witness for C7 (amended): on the empty cache evict_lru is a no-op with
no events; on the one-entry cache it removes the head key 1, firing the
hook with (1, 100). -/
theorem ccache_claim_C7_witness :
    (cacheEmpty3.evict_lru = ((), cacheEmpty3, [])) ∧
    (mapFind ((cacheOne.evict_lru).2.1).cache_map 1 = none ∧
      (1 : Nat) ∉ ((cacheOne.evict_lru).2.1).access_order ∧
      evictEvents (cacheOne.evict_lru).2.2 = [(1, 100)]) := by
  constructor
  · exact (ccache_claim_C7_amended cacheEmpty3).1 rfl
  · have h := (ccache_claim_C7_amended cacheOne).2 1 [] rfl ⟨100, 0⟩ rfl
    exact ⟨h.1, h.2.1, h.2.2.1 rfl⟩

/-- C8: clear() removes every entry and the entire recency state — contains
is false for every key afterwards and the size is 0 — it is idempotent
(clearing the cleared cache produces the identical state and events), and
it invokes no per-entry eviction hook. -/
theorem ccache_claim_C8 {K V : Type} [DecidableEq K] (c : CCache K V) :
    (∀ k : K, ((c.clear).1).contains k = false) ∧
    (∀ k : K, mapFind ((c.clear).1).cache_map k = none) ∧
    ((c.clear).1).cache_map.length = 0 ∧
    ((c.clear).1).access_order = [] ∧
    ((c.clear).1).clear = c.clear ∧
    evictEvents (c.clear).2 = [] := by
  refine ⟨fun k => rfl, fun k => rfl, rfl, rfl, rfl, ?_⟩
  rw [clear_state]
  exact evictEvents_log c _

/-- C9 counterexample: against the one-entry cache (eviction callback
installed, entry (1, 100) present), a throwing eviction hook inside
evict(1) surfaces with the cache state completely unchanged — the entry is
still present in both the entry map and the recency sequence — because the
source invokes the callback (line 137) before erasing the entry (lines
140-141). This contradicts the claim that the failure propagates only
after the removal has been committed. -/
theorem ccache_claim_C9_counterexample :
    cacheOne.evict_exc 1 true false = Except.error cacheOne ∧
    cacheOne.has_evict_cb = true ∧
    mapFind cacheOne.cache_map 1 = some ⟨100, 0⟩ ∧
    (1 : Nat) ∈ cacheOne.access_order := by
  exact ⟨rfl, rfl, rfl, by decide⟩

/-- C9 (amended): in evict(key) on a present entry, a failing logging hook
propagates only after the state mutation has committed (the error state
has the entry removed from both the entry map and the recency sequence),
but a failing eviction hook propagates before the removal: the error state
is exactly the pre-call state, with the entry still present in both
structures; in either case every state surfaced by a failing hook still
satisfies the cache's structural invariants. -/
theorem ccache_claim_C9_amended {K V : Type} [DecidableEq K] (c : CCache K V) (k : K) :
    (∀ e : CacheEntry V, mapFind c.cache_map k = some e → c.has_evict_cb = true →
      c.evict_exc k true false = Except.error c) ∧
    (∀ e : CacheEntry V, mapFind c.cache_map k = some e → c.has_logger = true →
      c.evict_exc k false true = Except.error
        { c with cache_map := mapErase c.cache_map k,
                 access_order := listRemove c.access_order k } ∧
      mapFind (mapErase c.cache_map k) k = none ∧
      k ∉ listRemove c.access_order k) ∧
    (∀ c1 : CCache K V, WF c →
      (∃ cb lg : Bool, c.evict_exc k cb lg = Except.error c1) → WF c1) := by
  refine ⟨?_, ?_, ?_⟩
  · intro e h hcb
    simp [CCache.evict_exc, h, hcb]
  · intro e h hlog
    refine ⟨?_, mapFind_mapErase_self _ _, not_mem_listRemove_self _ _⟩
    simp [CCache.evict_exc, h, hlog]
  · rintro c1 hw ⟨cb, lg, hex⟩
    cases h : mapFind c.cache_map k with
    | none =>
      simp [CCache.evict_exc, h] at hex
    | some e =>
      simp only [CCache.evict_exc, h] at hex
      by_cases hcb : (c.has_evict_cb && cb) = true
      · rw [if_pos hcb] at hex
        injection hex with hex1
        rw [← hex1]
        exact hw
      · rw [if_neg hcb] at hex
        by_cases hlg : (c.has_logger && lg) = true
        · rw [if_pos hlg] at hex
          injection hex with hex1
          rw [← hex1]
          have h2 := WF_evict c k hw
          rw [evict_state_some c k e h] at h2
          exact h2
        · rw [if_neg hlg] at hex
          exact absurd hex (by simp)

/-- Witness for C9 (amended) at the one-entry cache: the eviction hook
throwing during evict(1) surfaces the unchanged state; the logging hook
throwing surfaces the state with the entry already removed from both
structures. -/
theorem ccache_claim_C9_witness :
    cacheOne.evict_exc 1 true false = Except.error cacheOne ∧
    (cacheOne.evict_exc 1 false true = Except.error
      { cacheOne with cache_map := mapErase cacheOne.cache_map 1,
                      access_order := listRemove cacheOne.access_order 1 } ∧
      mapFind (mapErase cacheOne.cache_map 1) 1 = none ∧
      (1 : Nat) ∉ listRemove cacheOne.access_order 1) := by
  constructor
  · exact (ccache_claim_C9_amended cacheOne 1).1 ⟨100, 0⟩ rfl rfl
  · exact (ccache_claim_C9_amended cacheOne 1).2.1 ⟨100, 0⟩ rfl rfl

/-- C10: a get on a present, fresh key changes only that key's position in
the recency sequence: the entry map is left entirely unchanged (so the
entry keeps its stored value and its timestamp — a hit does not extend the
time-to-live — and every other entry is untouched), and the configuration
is untouched. -/
theorem ccache_claim_C10 {K V : Type} [DecidableEq K] (c : CCache K V) (k : K)
    (now : Nat) (e : CacheEntry V) (h : mapFind c.cache_map k = some e)
    (h2 : c.is_expired e.timestamp now = false) :
    (c.get k now).1 = some e.value ∧
    ((c.get k now).2.1).cache_map = c.cache_map ∧
    mapFind ((c.get k now).2.1).cache_map k = some e ∧
    ((c.get k now).2.1).access_order = listRemove c.access_order k ++ [k] ∧
    ((c.get k now).2.1).ttl_millis = c.ttl_millis ∧
    ((c.get k now).2.1).max_size = c.max_size := by
  rw [get_state_fresh c k now e h h2]
  exact ⟨rfl, rfl, h, rfl, rfl, rfl⟩

/-- Witness for C10: a fresh hit on key 1 at time 4000 returns 100, keeps
the entry map (and the entry's timestamp 0) identical, and only rewrites
the recency sequence. -/
theorem ccache_claim_C10_witness :
    (cacheOne.get 1 4000).1 = some 100 ∧
    ((cacheOne.get 1 4000).2.1).cache_map = cacheOne.cache_map ∧
    mapFind ((cacheOne.get 1 4000).2.1).cache_map 1 = some ⟨100, 0⟩ ∧
    ((cacheOne.get 1 4000).2.1).access_order =
      listRemove cacheOne.access_order 1 ++ [1] := by
  have h := ccache_claim_C10 cacheOne 1 4000 ⟨100, 0⟩ rfl rfl
  exact ⟨h.1, h.2.1, h.2.2.1, h.2.2.2.1⟩
